import Mathlib

/-!
Verification development for the zettelcourse scaffold
(`.zetteldev/hf_data.py`, `.zetteldev/render_notebook.py`,
`.zetteldev/create_lecture.py`).

The Python scripts are shallowly embedded: filesystem snapshots become
lists of `(path, size, mtime)` records, the Hugging Face API becomes an
explicit `World` record of remote tree items and fetchable manifests,
and each command becomes a pure Lean function transcribed from the
source.  The SHA-256/hexdigest truncation used for directory
fingerprints is idealised as an injective encoding of the byte stream
absorbed by the hasher (see `sha256_trunc16`).
-/

/-- A regular file in a directory snapshot: its path relative to the
directory root (components joined by a slash), its size in bytes
(`stat().st_size`) and its modification time in whole seconds
(`int(stat().st_mtime)`). -/
structure FileEntry where
  path : String
  size : Nat
  mtime : Nat
deriving DecidableEq, Repr

/-- Splits a character list at every occurrence of `sep`, mirroring
Python `str.split(sep)` for a one-character separator (so the result is
never empty and an empty input yields one empty group). -/
def splitChar (sep : Char) : List Char → List (List Char)
  | [] => [[]]
  | c :: cs =>
    match splitChar sep cs with
    | [] => [[]]
    | g :: gs => if c = sep then [] :: g :: gs else (c :: g) :: gs

/-- Final path component, as in `pathlib.Path(...).name`. -/
def lastComponent (p : String) : String :=
  List.asString ((splitChar '/' p.data).getLastD [])

/-- The filter used by `compute_dir_hash`, `get_dir_size` and the
manifest file listing: `file_path.is_file() and not
file_path.name.startswith(".")`. -/
def nonDot (f : FileEntry) : Bool :=
  !(List.isPrefixOf ['.'] (lastComponent f.path).data)

/-- Boolean lexicographic order on character lists, the order in which
`sorted(...)` arranges the relative paths of the snapshot. -/
def lexLe : List Char → List Char → Bool
  | [], _ => true
  | _ :: _, [] => false
  | a :: as, b :: bs =>
    if a < b then true
    else if b < a then false
    else lexLe as bs

/-- Sorting relation on file entries: compare relative paths. -/
def pathLe (a b : FileEntry) : Prop :=
  lexLe a.path.data b.path.data = true

instance : DecidableRel pathLe :=
  fun a b => inferInstanceAs (Decidable (_ = true))

/-- Sorting relation on lecture names used for the status listing. -/
def strLe (a b : String) : Prop :=
  lexLe a.data b.data = true

instance : DecidableRel strLe :=
  fun a b => inferInstanceAs (Decidable (_ = true))

/-- The files `compute_dir_hash` feeds to the hasher: the non-dot files
of the snapshot in path order. -/
def hashedFiles (files : List FileEntry) : List FileEntry :=
  List.insertionSort pathLe (files.filter nonDot)

/-- Bytes absorbed by the hasher for one file:
`str(relative_path) + str(size) + str(int(mtime))` (three consecutive
`hasher.update` calls, hence plain concatenation). -/
def encodeEntry (f : FileEntry) : List Char :=
  f.path.data ++ (Nat.repr f.size).data ++ (Nat.repr f.mtime).data

/-- The whole byte stream absorbed by the hasher. -/
def hashStream (l : List FileEntry) : List Char :=
  (l.map encodeEntry).flatten

/-- Idealisation of `hashlib.sha256(...).hexdigest()[:16]`: the digest
is modelled as an injective function of the absorbed stream.  The
leading marker character records that a real hex digest is a nonempty
fixed-width string, so it can never coincide with the empty string used
as the degraded remote hash. -/
def sha256_trunc16 (stream : List Char) : String :=
  List.asString ('h' :: stream)

/-- Transcription of `compute_dir_hash`: hash the relative path, size
and whole-second mtime of every non-dot file, in path order. -/
def compute_dir_hash (files : List FileEntry) : String :=
  sha256_trunc16 (hashStream (hashedFiles files))

/-- Transcription of `get_dir_size`: total size of the non-dot files. -/
def get_dir_size (files : List FileEntry) : Nat :=
  ((files.filter nonDot).map (fun f => f.size)).sum

/-- Value of a decimal digit character. -/
def decDigitVal (c : Char) : Nat := c.toNat - '0'.toNat

/-- Decimal decoding of a character list, used to invert `Nat.repr`. -/
def decodeDec (l : List Char) : Nat :=
  List.foldl (fun a c => a * 10 + decDigitVal c) 0 l

/-- Per-lecture manifest record, schema
`{lecture, hash, size_bytes, pushed_at, files:[{path,size}]}`. -/
structure Manifest where
  lecture : String
  hash : String
  size_bytes : Nat
  pushed_at : String
  files : List (String × Nat)
deriving DecidableEq, Repr

/-- The file list a push writes into the manifest: relative path and
size of every non-dot file, in path order. -/
def manifestFiles (files : List FileEntry) : List (String × Nat) :=
  (hashedFiles files).map (fun f => (f.path, f.size))

/-- The manifest `cmd_push` builds before uploading (`pushed_at` is the
wall-clock timestamp, passed in as a parameter). -/
def mkManifest (lecture : String) (files : List FileEntry) (ts : String) : Manifest :=
  { lecture := lecture, hash := compute_dir_hash files,
    size_bytes := get_dir_size files, pushed_at := ts,
    files := manifestFiles files }

/-- One item of `list_repo_tree`: its path and, when the API object has
a `type` attribute, that attribute's value. -/
structure TreeItem where
  path : String
  itemType : Option String
deriving DecidableEq, Repr

/-- One lecture directory under `lectures/`: its folder name, the files
currently inside `processed_data/`, and the parsed
`.hf_manifest.json` when that file is present. -/
structure LocalLecture where
  name : String
  files : List FileEntry
  manifest : Option Manifest
deriving DecidableEq, Repr

/-- The state a sync command sees: the local lecture tree, the remote
repository tree listing, and the remote manifests that
`hf_hub_download` can fetch (a lecture absent from `remoteManifests`
makes the fetch raise). -/
structure World where
  localLectures : List LocalLecture
  remoteTree : List TreeItem
  remoteManifests : List (String × Manifest)
deriving DecidableEq, Repr

/-- Transcription of `get_lectures`: lecture directories whose
`processed_data` folder exists and is nonempty. -/
def get_lectures (w : World) : List String :=
  (w.localLectures.filter (fun L => !L.files.isEmpty)).map (fun L => L.name)

/-- Look up a lecture's local directory state. -/
def findLocal (w : World) (lec : String) : Option LocalLecture :=
  w.localLectures.find? (fun L => L.name == lec)

/-- The filter `if item.path and "/" not in item.path and not
item.path.startswith(".")` applied to tree items in both `cmd_status`
and `cmd_pushall`. -/
def treeTopLevel (it : TreeItem) : Bool :=
  !it.path.data.isEmpty && !it.path.data.contains '/' &&
    !(List.isPrefixOf ['.'] it.path.data)

/-- Remote-lecture detection in `cmd_status`: accept an item whose
`type` attribute is `"directory"`, or, when the attribute is absent,
whose path has no dot. -/
def statusRemoteAdd (it : TreeItem) : Bool :=
  treeTopLevel it &&
    match it.itemType with
    | some t => t == "directory"
    | none => !it.path.data.contains '.'

/-- Remote-lecture detection in `cmd_pushall`: only the
no-`type`-attribute fallback is present there. -/
def pushallRemoteAdd (it : TreeItem) : Bool :=
  treeTopLevel it &&
    match it.itemType with
    | some _ => false
    | none => !it.path.data.contains '.'

/-- The `remote_lectures` set computed by `cmd_status`. -/
def statusRemotes (w : World) : List String :=
  (w.remoteTree.filter statusRemoteAdd).map (fun it => it.path)

/-- The `remote_lectures` set computed by `cmd_pushall`. -/
def pushallRemotes (w : World) : List String :=
  (w.remoteTree.filter pushallRemoteAdd).map (fun it => it.path)

/-- Result of `hf_hub_download` of `<lec>/.hf_manifest.json`: `none`
models the download raising. -/
def fetchRemoteManifest (w : World) (lec : String) : Option Manifest :=
  (w.remoteManifests.find? (fun p => p.1 == lec)).map (fun p => p.2)

/-- The `remote_hash` value `cmd_status` ends up with: the fetched
manifest's hash, or the empty string when the fetch raises
(`except: remote_hash = ""`). -/
def remoteHashOf (w : World) (lec : String) : String :=
  match fetchRemoteManifest w lec with
  | some m => m.hash
  | none => ""

/-- Transcription of the status determination in `cmd_status` (the
`if has_local and has_remote: ... elif has_local: ... elif has_remote:`
chain); `"unknown"` is the initial value that survives when neither
side is present. -/
def classifyStatus (hasLocal hasRemote : Bool) (localManifest : Option Manifest)
    (localHash remoteHash : String) : String :=
  if hasLocal && hasRemote then
    match localManifest with
    | some m =>
      if m.hash = localHash then
        if localHash = remoteHash then "synced" else "behind"
      else "ahead"
    | none => "ahead"
  else if hasLocal then "local only"
  else if hasRemote then "remote only"
  else "unknown"

/-- The status `cmd_status` prints for one lecture of its listing. -/
def statusOfLecture (w : World) (lec : String) : String :=
  let hasLocal := match findLocal w lec with
    | some L => !L.files.isEmpty
    | none => false
  let localHash := match findLocal w lec with
    | some L => compute_dir_hash L.files
    | none => ""
  let localManifest := match findLocal w lec with
    | some L => L.manifest
    | none => none
  let hasRemote := decide (lec ∈ statusRemotes w)
  let remoteHash := if hasRemote then remoteHashOf w lec else ""
  classifyStatus hasLocal hasRemote localManifest localHash remoteHash

/-- The `all_lectures = sorted(set(local_lectures) | remote_lectures)`
listing of `cmd_status`. -/
def allLectures (w : World) : List String :=
  List.insertionSort strLe ((get_lectures w ++ statusRemotes w).dedup)

/-- The rows of the status table: one `(lecture, status)` pair per
listed lecture. -/
def statusRows (w : World) : List (String × String) :=
  (allLectures w).map (fun lec => (lec, statusOfLecture w lec))

/-- Python `str.lower()` on a character list (ASCII). -/
def pyLower (l : List Char) : List Char := l.map Char.toLower

/-- Python `needle in hay` substring test on character lists. -/
def listContainsSub (needle : List Char) : List Char → Bool
  | [] => needle.isEmpty
  | c :: cs => List.isPrefixOf needle (c :: cs) || listContainsSub needle cs

/-- The `"timed out" in str(e).lower()` test of `cmd_push` and
`cmd_pushall`. -/
def isTimeoutMsg (msg : String) : Bool :=
  listContainsSub "timed out".data (pyLower msg.data)

/-- Outcome summary of one `cmd_push` run.  `uploadError = none` means
`api.upload_folder` returned; `some msg` means it raised an exception
whose string form is `msg`. -/
structure PushResult where
  savedManifest : Option Manifest
  uploadAttempted : Bool
  timeoutReported : Bool
  exitCode : Nat
deriving DecidableEq, Repr

/-- Transcription of `cmd_push`.  The `files.isEmpty` test covers the
two validation exits (missing or empty `processed_data`), both of which
happen before the manifest is written.  On an upload exception the
timeout message is special-cased but `sys.exit(1)` runs on both
branches of that `if`. -/
def cmd_push (lec : String) (files : List FileEntry) (ts : String)
    (uploadError : Option String) : PushResult :=
  if files.isEmpty then
    { savedManifest := none, uploadAttempted := false,
      timeoutReported := false, exitCode := 1 }
  else
    let m := mkManifest lec files ts
    match uploadError with
    | none =>
      { savedManifest := some m, uploadAttempted := true,
        timeoutReported := false, exitCode := 0 }
    | some msg =>
      { savedManifest := some m, uploadAttempted := true,
        timeoutReported := isTimeoutMsg msg, exitCode := 1 }

/-- Events of a `cmd_push` run, in program order. -/
inductive PushEvent
  | saveManifestEv (m : Manifest)
  | uploadEv (lec : String)
  | exitEv (code : Nat)
deriving DecidableEq, Repr

/-- Event trace of `cmd_push`: after validation the manifest is saved
locally (`save_local_manifest`), then the upload is attempted, and a
raised upload exception ends in `sys.exit(1)`. -/
def cmd_push_trace (lec : String) (files : List FileEntry) (ts : String)
    (uploadError : Option String) : List PushEvent :=
  if files.isEmpty then [PushEvent.exitEv 1]
  else
    [PushEvent.saveManifestEv (mkManifest lec files ts), PushEvent.uploadEv lec] ++
      (match uploadError with
       | none => []
       | some _ => [PushEvent.exitEv 1])

/-- The local manifest file content after a trace has run, starting
from `initial`; each `saveManifestEv` overwrites it. -/
def localManifestAfter (initial : Option Manifest) (trace : List PushEvent) :
    Option Manifest :=
  trace.foldl (fun acc ev =>
    match ev with
    | PushEvent.saveManifestEv m => some m
    | _ => acc) initial

/-- The manifest comparison of `cmd_pushall` for a lecture that exists
remotely: push when the local manifest is missing or stale, otherwise
compare against the fetched remote manifest; a failed fetch hits
`except Exception: pass` and yields `none` (skip). -/
def pushallManifestStep (localHash : String) :
    Option Manifest → Option Manifest → Option String
  | none, _ => some "ahead"
  | some m, fetched =>
    if m.hash ≠ localHash then some "ahead"
    else
      match fetched with
      | some rm => if localHash ≠ rm.hash then some "ahead" else none
      | none => none

/-- The selection test of `cmd_pushall` for one local lecture: `some
label` when the lecture is appended to `to_push`, `none` when it is
skipped. -/
def pushallNeeds (w : World) (L : LocalLecture) : Option String :=
  if L.name ∈ pushallRemotes w then
    pushallManifestStep (compute_dir_hash L.files) L.manifest
      (fetchRemoteManifest w L.name)
  else some "local only"

/-- The `to_push` list of `cmd_pushall`. -/
def toPush (w : World) : List (String × String) :=
  (w.localLectures.filter (fun L => !L.files.isEmpty)).filterMap
    (fun L => (pushallNeeds w L).map (fun lab => (L.name, lab)))

/-- Outcome summary of a `cmd_pushall` run. -/
structure PushallResult where
  attempted : List String
  failed : List String
  exitCode : Nat
deriving DecidableEq, Repr

/-- Transcription of `cmd_pushall`'s push loop: every `to_push` entry
is attempted; an upload exception with a timeout message is only
printed, any other exception appends the lecture to `failed`; the
command exits 1 exactly when `failed` is nonempty. -/
def cmd_pushall (w : World) (uploadError : String → Option String) : PushallResult :=
  let tp := toPush w
  let failedList := tp.filterMap (fun p =>
    match uploadError p.1 with
    | none => none
    | some msg => if isTimeoutMsg msg then none else some p.1)
  { attempted := tp.map (fun p => p.1), failed := failedList,
    exitCode := if failedList.isEmpty then 0 else 1 }

/-- The section 4.2 classifier evaluated on `cmd_pushall`'s own view of
the remote (its tree detection and manifest fetch results). -/
def classifyPushall (w : World) (L : LocalLecture) : String :=
  classifyStatus (!L.files.isEmpty) (decide (L.name ∈ pushallRemotes w)) L.manifest
    (compute_dir_hash L.files)
    (if L.name ∈ pushallRemotes w then remoteHashOf w L.name else "")

/-- The skip case of `cmd_pushall`: lecture present remotely, local
manifest fresh, but the remote manifest fetch raises. -/
def pushallFetchSkip (w : World) (L : LocalLecture) : Prop :=
  L.name ∈ pushallRemotes w ∧
    (∃ m, L.manifest = some m ∧ m.hash = compute_dir_hash L.files) ∧
    fetchRemoteManifest w L.name = none

/-- How the download phase of a `cmd_pull` branch ends: the
`snapshot_download` (plus subsequent moves) returns normally, or raises
after the staging directory `.hf_download_tmp` was created, or raises
before creating it. -/
inductive DlResult
  | ok
  | failAfterCreate
  | failNoCreate
deriving DecidableEq, Repr

/-- Observable outcome of a `cmd_pull` branch: the exit code and
whether the staging directory still exists when the command exits. -/
structure PullOutcome where
  exitCode : Nat
  stagingLeft : Bool
deriving DecidableEq, Repr

/-- `cmd_pull --all` branch: on success the moves run and then
`shutil.rmtree(tmp_dir)` removes the staging directory; the `except`
arm only prints and exits 1, with no cleanup. -/
def cmd_pull_all : DlResult → PullOutcome
  | DlResult.ok => { exitCode := 0, stagingLeft := false }
  | DlResult.failAfterCreate => { exitCode := 1, stagingLeft := true }
  | DlResult.failNoCreate => { exitCode := 1, stagingLeft := false }

/-- Whole-lecture `cmd_pull <lecture>` branch: success ends with
`shutil.rmtree(local_dir, ignore_errors=True)`; the `except` arm only
prints and exits 1. -/
def cmd_pull_lecture : DlResult → PullOutcome
  | DlResult.ok => { exitCode := 0, stagingLeft := false }
  | DlResult.failAfterCreate => { exitCode := 1, stagingLeft := true }
  | DlResult.failNoCreate => { exitCode := 1, stagingLeft := false }

/-- Sub-path `cmd_pull <lecture>/<subdir>` branch, same shape as the
whole-lecture branch. -/
def cmd_pull_subpath : DlResult → PullOutcome
  | DlResult.ok => { exitCode := 0, stagingLeft := false }
  | DlResult.failAfterCreate => { exitCode := 1, stagingLeft := true }
  | DlResult.failNoCreate => { exitCode := 1, stagingLeft := false }

/-- Output formats the renderer can pass to quarto. -/
inductive OutputFormat
  | pdf
  | html
deriving DecidableEq, Repr

/-- CPython `pathlib.PurePath.suffix`: the last dot-suffix of the final
component, empty when the name has no dot, starts with its only dot, or
ends with the dot. -/
def pySuffix (p : String) : String :=
  let rn := (lastComponent p).data.reverse
  let pre := rn.takeWhile (fun c => c ≠ '.')
  if pre.length = rn.length then ""
  else if pre.isEmpty then ""
  else if (rn.drop (pre.length + 1)).isEmpty then ""
  else List.asString ('.' :: pre.reverse)

/-- Python `str.lower()` on a string (ASCII). -/
def pyLowerStr (s : String) : String := List.asString (pyLower s.data)

/-- The extension dispatch of `render_notebook.main`:
`.pdf` renders pdf, `.html`/`.htm` render html, anything else is the
unsupported-format error. -/
def chooseFormat (ext : String) : Option OutputFormat :=
  if ext = ".pdf" then some OutputFormat.pdf
  else if ext = ".html" ∨ ext = ".htm" then some OutputFormat.html
  else none

/-- Observable outcome of a `render_notebook.main` run. -/
structure RenderRun where
  subprocessInvoked : Bool
  exitCode : Nat
  outputCopied : Bool
  usedFormat : Option OutputFormat
deriving DecidableEq, Repr

/-- Transcription of `render_notebook.main`: argument-count check,
input-existence check, extension dispatch, then the quarto subprocess
(`quartoExit` its return code, `quartoProduces` whether the expected
output file appears). -/
def render_main (argv : List String) (inputExists : Bool)
    (quartoExit : Nat) (quartoProduces : Bool) : RenderRun :=
  match argv with
  | _ :: _ :: outp :: _ =>
    if !inputExists then
      { subprocessInvoked := false, exitCode := 1, outputCopied := false,
        usedFormat := none }
    else
      match chooseFormat (pyLowerStr (pySuffix outp)) with
      | none =>
        { subprocessInvoked := false, exitCode := 1, outputCopied := false,
          usedFormat := none }
      | some fmt =>
        if quartoExit ≠ 0 then
          { subprocessInvoked := true, exitCode := 1, outputCopied := false,
            usedFormat := some fmt }
        else if quartoProduces then
          { subprocessInvoked := true, exitCode := 0, outputCopied := true,
            usedFormat := some fmt }
        else
          { subprocessInvoked := true, exitCode := 1, outputCopied := false,
            usedFormat := some fmt }
  | _ =>
    { subprocessInvoked := false, exitCode := 1, outputCopied := false,
      usedFormat := none }

/-- A notebook cell source: JSON list-of-lines or a single string. -/
inductive CellSource
  | fromList (lines : List String)
  | fromStr (s : String)
deriving DecidableEq, Repr

/-- A notebook cell: its `cell_type` and its source. -/
structure NbCell where
  cell_type : String
  source : CellSource
deriving DecidableEq, Repr

/-- Python `str.strip()` whitespace test (ASCII whitespace incl.
vertical tab and form feed). -/
def isPySpace (c : Char) : Bool :=
  c == ' ' || c == '\t' || c == '\n' || c == '\r' ||
    c == Char.ofNat 11 || c == Char.ofNat 12

/-- Python `str.strip()` on a character list. -/
def stripChars (l : List Char) : List Char :=
  ((l.dropWhile isPySpace).reverse.dropWhile isPySpace).reverse

/-- The `line.strip().startswith('#|')` test of
`strip_nbdev_directives`. -/
def isDirectiveLine (s : String) : Bool :=
  List.isPrefixOf ['#', '|'] (stripChars s.data)

/-- Python `src.split('\n')`. -/
def splitLinesNL (s : String) : List String :=
  (splitChar '\n' s.data).map List.asString

/-- Join character-list lines with a separator (Python
`sep.join(...)`). -/
def joinWith (sep : List Char) : List (List Char) → List Char
  | [] => []
  | [x] => x
  | x :: y :: xs => x ++ sep ++ joinWith sep (y :: xs)

/-- Python `'\n'.join(...)`. -/
def joinLinesNL (ls : List String) : String :=
  List.asString (joinWith ['\n'] (ls.map (fun s => s.data)))

/-- Directive removal on one cell source, handling both source forms as
the Python does. -/
def stripSource : CellSource → CellSource
  | CellSource.fromList ls =>
    CellSource.fromList (ls.filter (fun l => !isDirectiveLine l))
  | CellSource.fromStr s =>
    CellSource.fromStr (joinLinesNL ((splitLinesNL s).filter (fun l => !isDirectiveLine l)))

/-- Transcription of `strip_nbdev_directives`: rewrite the source of
every code cell, leave other cells alone. -/
def strip_nbdev_directives (cells : List NbCell) : List NbCell :=
  cells.map (fun c =>
    if c.cell_type = "code" then { c with source := stripSource c.source } else c)

/-- Modelled from the claim's words, for comparison: remove exactly the
source lines that literally begin with the directive prefix (no
whitespace stripping). -/
def claimDirectiveFilter (ls : List String) : List String :=
  ls.filter (fun l => !(List.isPrefixOf ['#', '|'] l.data))

/-- One entry of the `lectures/` directory: its name and whether it is
a directory (files are skipped by the numbering scan but still make
`lecture_path.exists()` true). -/
structure FsEntry where
  name : String
  isDir : Bool
deriving DecidableEq, Repr

/-- Python `int(...)` on the digit prefix of a folder name (digits
only; anything else raises and is skipped by the caller). -/
def parseNatDigits (s : String) : Option Nat :=
  if s.data ≠ [] ∧ s.data.all (fun c => c.isDigit) then
    some (decodeDec s.data)
  else none

/-- Transcription of `get_next_lecture_number`: max over the parsed
numeric prefixes of existing lecture directories, default 0, plus 1. -/
def get_next_lecture_number (entries : List FsEntry) : Nat :=
  (entries.filterMap (fun e =>
    if e.isDir then
      parseNatDigits (List.asString ((splitChar '-' e.name.data).headD []))
    else none)).foldl max 0 + 1

/-- Transcription of `slugify`: lower-case, then spaces and
underscores become hyphens. -/
def slugify (name : String) : String :=
  List.asString (name.data.map (fun c =>
    let lc := c.toLower
    if lc = ' ' ∨ lc = '_' then '-' else lc))

/-- Python `f"{n:02d}"`. -/
def pad2 (n : Nat) : String :=
  if n < 10 then List.asString ('0' :: (Nat.repr n).data) else Nat.repr n

/-- A filesystem write performed by the scaffolder. -/
inductive FsEffect
  | mkdirEff (p : String)
  | writeFileEff (p : String)
deriving DecidableEq, Repr

/-- Transcription of `create_lecture` as an effect trace over the
`lectures/` directory listing: the exists-check precedes every mkdir
and file write, and on collision the command exits 1 having performed
no effect. -/
def create_lecture (entries : List FsEntry) (name : String) :
    Option Nat × List FsEffect :=
  let folder := pad2 (get_next_lecture_number entries) ++ "-" ++ slugify name
  if folder ∈ entries.map (fun e => e.name) then
    (some 1, [])
  else
    (none,
      [FsEffect.mkdirEff folder,
       FsEffect.mkdirEff (folder ++ "/processed_data"),
       FsEffect.mkdirEff (folder ++ "/figures"),
       FsEffect.writeFileEff (folder ++ "/study.ipynb"),
       FsEffect.writeFileEff (folder ++ "/practice.ipynb"),
       FsEffect.writeFileEff (folder ++ "/Snakefile")])

theorem decDigitVal_digitChar (m : Nat) (h : m < 10) :
    decDigitVal (Nat.digitChar m) = m := by
  unfold decDigitVal
  interval_cases m <;> rfl

theorem toDigitsCore_succ (b fuel n : Nat) (ds : List Char) :
    Nat.toDigitsCore b (fuel + 1) n ds =
      if n / b = 0 then Nat.digitChar (n % b) :: ds
      else Nat.toDigitsCore b fuel (n / b) (Nat.digitChar (n % b) :: ds) := by
  simp [Nat.toDigitsCore]

theorem toDigitsCore_acc (fuel : Nat) : ∀ (n : Nat) (ds : List Char),
    Nat.toDigitsCore 10 fuel n ds = Nat.toDigitsCore 10 fuel n [] ++ ds := by
  induction fuel with
  | zero => intro n ds; simp [Nat.toDigitsCore]
  | succ fuel ih =>
    intro n ds
    rw [toDigitsCore_succ, toDigitsCore_succ]
    by_cases h : n / 10 = 0
    · simp [h]
    · simp only [if_neg h]
      rw [ih (n / 10) [Nat.digitChar (n % 10)],
        ih (n / 10) (Nat.digitChar (n % 10) :: ds), List.append_assoc]
      rfl

theorem decodeDec_toDigitsCore (fuel : Nat) : ∀ n : Nat, n ≤ fuel → ∀ a : Nat,
    List.foldl (fun a c => a * 10 + decDigitVal c) a (Nat.toDigitsCore 10 fuel n []) =
      a * 10 ^ (Nat.toDigitsCore 10 fuel n []).length + n := by
  induction fuel with
  | zero =>
    intro n hn a
    interval_cases n
    simp [Nat.toDigitsCore]
  | succ fuel ih =>
    intro n hn a
    rw [toDigitsCore_succ]
    have hd : decDigitVal (Nat.digitChar (n % 10)) = n % 10 :=
      decDigitVal_digitChar (n % 10) (Nat.mod_lt n (by omega))
    by_cases h : n / 10 = 0
    · have hm : n % 10 = n := by omega
      simp only [if_pos h, List.foldl_cons, List.foldl_nil, List.length_cons,
        List.length_nil]
      rw [hd, hm]
      norm_num
    · simp only [if_neg h]
      rw [toDigitsCore_acc]
      have hn' : n / 10 ≤ fuel := by
        have : 0 < n / 10 := Nat.pos_of_ne_zero h
        omega
      rw [List.foldl_append, ih (n / 10) hn' a]
      simp only [List.foldl_cons, List.foldl_nil, hd, List.length_append,
        List.length_cons, List.length_nil, pow_succ, ← mul_assoc]
      generalize a * 10 ^ (Nat.toDigitsCore 10 fuel (n / 10) []).length = ak
      omega

theorem decodeDec_repr (n : Nat) : decodeDec (Nat.repr n).data = n := by
  have h : (Nat.repr n).data = Nat.toDigitsCore 10 (n + 1) n [] := rfl
  rw [h]
  unfold decodeDec
  rw [decodeDec_toDigitsCore (n + 1) n (by omega) 0]
  simp

theorem repr_nat_injective : Function.Injective Nat.repr := by
  intro m n h
  have : decodeDec (Nat.repr m).data = decodeDec (Nat.repr n).data := by rw [h]
  rwa [decodeDec_repr, decodeDec_repr] at this

theorem lexLe_total (a : List Char) : ∀ b, lexLe a b = true ∨ lexLe b a = true := by
  induction a with
  | nil => intro b; left; rfl
  | cons x xs ih =>
    intro b
    cases b with
    | nil => right; rfl
    | cons y ys =>
      simp only [lexLe]
      rcases lt_trichotomy x y with h | h | h
      · left; simp [h]
      · subst h
        simp only [lt_irrefl, if_false]
        exact ih ys
      · right; simp [h]

theorem lexLe_trans (a : List Char) :
    ∀ b c, lexLe a b = true → lexLe b c = true → lexLe a c = true := by
  induction a with
  | nil => intro b c _ _; rfl
  | cons x xs ih =>
    intro b c hab hbc
    cases b with
    | nil => simp [lexLe] at hab
    | cons y ys =>
      cases c with
      | nil => simp [lexLe] at hbc
      | cons z zs =>
        simp only [lexLe] at hab hbc ⊢
        rcases lt_trichotomy x y with h1 | h1 | h1
        · rcases lt_trichotomy y z with h2 | h2 | h2
          · simp [lt_trans h1 h2]
          · subst h2; simp [h1]
          · rw [if_neg (lt_asymm h2), if_pos h2] at hbc
            exact absurd hbc (by simp)
        · subst h1
          rw [if_neg (lt_irrefl x), if_neg (lt_irrefl x)] at hab
          rcases lt_trichotomy x z with h2 | h2 | h2
          · simp [h2]
          · subst h2
            rw [if_neg (lt_irrefl x), if_neg (lt_irrefl x)] at hbc ⊢
            exact ih ys zs hab hbc
          · rw [if_neg (lt_asymm h2), if_pos h2] at hbc
            exact absurd hbc (by simp)
        · rw [if_neg (lt_asymm h1), if_pos h1] at hab
          exact absurd hab (by simp)

theorem lexLe_antisymm (a : List Char) :
    ∀ b, lexLe a b = true → lexLe b a = true → a = b := by
  induction a with
  | nil =>
    intro b _ hba
    cases b with
    | nil => rfl
    | cons y ys => simp [lexLe] at hba
  | cons x xs ih =>
    intro b hab hba
    cases b with
    | nil => simp [lexLe] at hab
    | cons y ys =>
      simp only [lexLe] at hab hba
      rcases lt_trichotomy x y with h | h | h
      · rw [if_neg (lt_asymm h), if_pos h] at hba
        exact absurd hba (by simp)
      · subst h
        rw [if_neg (lt_irrefl x), if_neg (lt_irrefl x)] at hab hba
        rw [ih ys hab hba]
      · rw [if_neg (lt_asymm h), if_pos h] at hab
        exact absurd hab (by simp)

instance : IsTotal FileEntry pathLe :=
  ⟨fun a b => lexLe_total a.path.data b.path.data⟩

instance : IsTrans FileEntry pathLe :=
  ⟨fun a b c => lexLe_trans a.path.data b.path.data c.path.data⟩

theorem insertionSort_eq_of_perm_nodup (l₁ l₂ : List FileEntry)
    (hp : l₁.Perm l₂) (hn : (l₁.map (fun f => f.path)).Nodup) :
    List.insertionSort pathLe l₁ = List.insertionSort pathLe l₂ := by
  have perm12 : (List.insertionSort pathLe l₁).Perm (List.insertionSort pathLe l₂) :=
    (List.perm_insertionSort pathLe l₁).trans
      (hp.trans (List.perm_insertionSort pathLe l₂).symm)
  have hmap1 : ((List.insertionSort pathLe l₁).map (fun f => f.path)).Nodup :=
    hn.perm ((List.perm_insertionSort pathLe l₁).map (fun f => f.path)).symm
  have hmap2 : ((List.insertionSort pathLe l₂).map (fun f => f.path)).Nodup :=
    hmap1.perm (perm12.map (fun f => f.path))
  have hpw1 : List.Pairwise (fun a b : FileEntry => a.path ≠ b.path)
      (List.insertionSort pathLe l₁) := List.pairwise_map.mp hmap1
  have hpw2 : List.Pairwise (fun a b : FileEntry => a.path ≠ b.path)
      (List.insertionSort pathLe l₂) := List.pairwise_map.mp hmap2
  have hs1 : List.Sorted (fun a b : FileEntry => pathLe a b ∧ a.path ≠ b.path)
      (List.insertionSort pathLe l₁) :=
    (List.sorted_insertionSort pathLe l₁).and hpw1
  have hs2 : List.Sorted (fun a b : FileEntry => pathLe a b ∧ a.path ≠ b.path)
      (List.insertionSort pathLe l₂) :=
    (List.sorted_insertionSort pathLe l₂).and hpw2
  haveI : IsAntisymm FileEntry (fun a b : FileEntry => pathLe a b ∧ a.path ≠ b.path) :=
    ⟨fun a b h₁ h₂ =>
      absurd (String.ext (lexLe_antisymm a.path.data b.path.data h₁.1 h₂.1)) h₁.2⟩
  exact List.eq_of_perm_of_sorted perm12 hs1 hs2

theorem pathLe_iff_of_keys (φ : FileEntry → FileEntry)
    (hφ : ∀ e, (φ e).path = e.path) (x y : FileEntry) :
    pathLe (φ x) (φ y) ↔ pathLe x y := by
  unfold pathLe
  rw [hφ x, hφ y]

theorem orderedInsert_map_key (φ : FileEntry → FileEntry)
    (hφ : ∀ e, (φ e).path = e.path) (x : FileEntry) (l : List FileEntry) :
    List.orderedInsert pathLe (φ x) (l.map φ) = (List.orderedInsert pathLe x l).map φ := by
  induction l with
  | nil => rfl
  | cons y ys ih =>
    simp only [List.map_cons, List.orderedInsert]
    by_cases h : pathLe x y
    · rw [if_pos ((pathLe_iff_of_keys φ hφ x y).mpr h), if_pos h, List.map_cons,
        List.map_cons]
    · rw [if_neg (fun hc => h ((pathLe_iff_of_keys φ hφ x y).mp hc)), if_neg h,
        List.map_cons, ih]

theorem insertionSort_map_key (φ : FileEntry → FileEntry)
    (hφ : ∀ e, (φ e).path = e.path) (l : List FileEntry) :
    List.insertionSort pathLe (l.map φ) = (List.insertionSort pathLe l).map φ := by
  induction l with
  | nil => rfl
  | cons x xs ih =>
    simp only [List.map_cons, List.insertionSort]
    rw [ih, orderedInsert_map_key φ hφ]

theorem nonDot_of_key (φ : FileEntry → FileEntry)
    (hφ : ∀ e, (φ e).path = e.path) (e : FileEntry) : nonDot (φ e) = nonDot e := by
  unfold nonDot
  rw [hφ e]

theorem hashedFiles_map_key (φ : FileEntry → FileEntry)
    (hφ : ∀ e, (φ e).path = e.path) (l : List FileEntry) :
    hashedFiles (l.map φ) = (hashedFiles l).map φ := by
  unfold hashedFiles
  rw [List.filter_map, List.filter_congr (fun e _ => by
    show (nonDot ∘ φ) e = nonDot e
    exact nonDot_of_key φ hφ e)]
  exact insertionSort_map_key φ hφ (l.filter nonDot)

theorem map_eq_self_of_fix (φ : FileEntry → FileEntry) :
    ∀ l : List FileEntry, (∀ e ∈ l, φ e = e) → l.map φ = l := by
  intro l
  induction l with
  | nil => intro _; rfl
  | cons x xs ih =>
    intro h
    simp only [List.map_cons]
    rw [h x (by simp), ih (fun e he => h e (by simp [he]))]

theorem compute_dir_hash_congr (l₁ l₂ : List FileEntry)
    (hp : (l₁.filter nonDot).Perm (l₂.filter nonDot))
    (hn : ((l₁.filter nonDot).map (fun f => f.path)).Nodup) :
    compute_dir_hash l₁ = compute_dir_hash l₂ := by
  unfold compute_dir_hash hashedFiles
  rw [insertionSort_eq_of_perm_nodup (l₁.filter nonDot) (l₂.filter nonDot) hp hn]

theorem compute_dir_hash_ne_update (pre post : List FileEntry) (f g : FileEntry)
    (hpath : g.path = f.path) (hnd : nonDot f = true)
    (hnodup : ((pre ++ f :: post).map (fun e => e.path)).Nodup)
    (henc : encodeEntry g ≠ encodeEntry f) :
    compute_dir_hash (pre ++ g :: post) ≠ compute_dir_hash (pre ++ f :: post) := by
  have hφkey : ∀ e : FileEntry,
      ((fun e => if e.path = f.path then g else e) e).path = e.path := by
    intro e
    by_cases h : e.path = f.path
    · simp [h, hpath]
    · simp [h]
  set φ : FileEntry → FileEntry := fun e => if e.path = f.path then g else e with hφdef
  have hφf : φ f = g := by simp [hφdef]
  have hsplitpaths : ∀ (A B : List FileEntry),
      ((A ++ f :: B).map (fun e => e.path)).Nodup →
      (∀ e ∈ A, e.path ≠ f.path) ∧ (∀ e ∈ B, e.path ≠ f.path) := by
    intro A B hnd2
    rw [List.map_append, List.map_cons] at hnd2
    have hmid := (List.nodup_middle).mp hnd2
    have hnotmem := (List.nodup_cons.mp hmid).1
    constructor
    · intro e he heq
      exact hnotmem (List.mem_append.mpr (Or.inl (heq ▸ List.mem_map_of_mem _ he)))
    · intro e he heq
      exact hnotmem (List.mem_append.mpr (Or.inr (heq ▸ List.mem_map_of_mem _ he)))
  have hfix : ∀ (A : List FileEntry), (∀ e ∈ A, e.path ≠ f.path) → A.map φ = A := by
    intro A hA
    exact map_eq_self_of_fix φ A (fun e he => by simp [hφdef, hA e he])
  have hmapL : (pre ++ f :: post).map φ = pre ++ g :: post := by
    obtain ⟨h1, h2⟩ := hsplitpaths pre post hnodup
    rw [List.map_append, List.map_cons, hφf, hfix pre h1, hfix post h2]
  have hhf : hashedFiles (pre ++ g :: post) = (hashedFiles (pre ++ f :: post)).map φ := by
    rw [← hmapL, hashedFiles_map_key φ hφkey]
  have hfs : f ∈ hashedFiles (pre ++ f :: post) := by
    have hf1 : f ∈ (pre ++ f :: post).filter nonDot :=
      List.mem_filter.mpr ⟨by simp, hnd⟩
    exact ((List.perm_insertionSort pathLe _).mem_iff).mpr hf1
  obtain ⟨A, B, hAB⟩ := List.append_of_mem hfs
  have hndfilter : (((pre ++ f :: post).filter nonDot).map (fun e => e.path)).Nodup :=
    List.Nodup.sublist (List.Sublist.map _ (List.filter_sublist _)) hnodup
  have hnds : ((hashedFiles (pre ++ f :: post)).map (fun e => e.path)).Nodup :=
    hndfilter.perm ((List.perm_insertionSort pathLe _).map (fun e => e.path)).symm
  rw [hAB] at hnds
  obtain ⟨hA, hB⟩ := hsplitpaths A B hnds
  have hmapS : (hashedFiles (pre ++ f :: post)).map φ = A ++ g :: B := by
    rw [hAB, List.map_append, List.map_cons, hφf, hfix A hA, hfix B hB]
  intro hcontra
  unfold compute_dir_hash sha256_trunc16 at hcontra
  have hdata := congrArg String.data hcontra
  have hasd : ∀ l : List Char, (List.asString l).data = l := fun _ => rfl
  rw [hasd, hasd] at hdata
  have hstream : hashStream (hashedFiles (pre ++ g :: post)) =
      hashStream (hashedFiles (pre ++ f :: post)) :=
    List.tail_eq_of_cons_eq hdata
  rw [hhf, hmapS, hAB] at hstream
  unfold hashStream at hstream
  rw [List.map_append, List.map_cons, List.map_append, List.map_cons,
    List.flatten_append, List.flatten_cons, List.flatten_append,
    List.flatten_cons] at hstream
  have h1 := List.append_cancel_left hstream
  have h2 := List.append_cancel_right h1
  exact henc h2

theorem encodeEntry_ne_of_mtime (f g : FileEntry) (hpath : g.path = f.path)
    (hsize : g.size = f.size) (hm : g.mtime ≠ f.mtime) :
    encodeEntry g ≠ encodeEntry f := by
  intro h
  unfold encodeEntry at h
  rw [hpath, hsize] at h
  have h2 := List.append_cancel_left h
  exact hm (repr_nat_injective (String.ext h2))

theorem encodeEntry_ne_of_size (f g : FileEntry) (hpath : g.path = f.path)
    (hmt : g.mtime = f.mtime) (hs : g.size ≠ f.size) :
    encodeEntry g ≠ encodeEntry f := by
  intro h
  unfold encodeEntry at h
  rw [hpath, hmt] at h
  have h2 := List.append_cancel_right h
  have h3 := List.append_cancel_left h2
  exact hs (repr_nat_injective (String.ext h3))

theorem compute_dir_hash_ne_of_mtime_change (pre post : List FileEntry)
    (f g : FileEntry) (hpath : g.path = f.path) (hsize : g.size = f.size)
    (hm : g.mtime ≠ f.mtime) (hnd : nonDot f = true)
    (hnodup : ((pre ++ f :: post).map (fun e => e.path)).Nodup) :
    compute_dir_hash (pre ++ g :: post) ≠ compute_dir_hash (pre ++ f :: post) :=
  compute_dir_hash_ne_update pre post f g hpath hnd hnodup
    (encodeEntry_ne_of_mtime f g hpath hsize hm)

theorem compute_dir_hash_ne_of_size_change (pre post : List FileEntry)
    (f g : FileEntry) (hpath : g.path = f.path) (hmt : g.mtime = f.mtime)
    (hs : g.size ≠ f.size) (hnd : nonDot f = true)
    (hnodup : ((pre ++ f :: post).map (fun e => e.path)).Nodup) :
    compute_dir_hash (pre ++ g :: post) ≠ compute_dir_hash (pre ++ f :: post) :=
  compute_dir_hash_ne_update pre post f g hpath hnd hnodup
    (encodeEntry_ne_of_size f g hpath hmt hs)

theorem compute_dir_hash_ne_empty (l : List FileEntry) : compute_dir_hash l ≠ "" := by
  intro h
  have hd := congrArg String.data h
  have hasd : ∀ l : List Char, (List.asString l).data = l := fun _ => rfl
  unfold compute_dir_hash sha256_trunc16 at hd
  rw [hasd] at hd
  exact List.cons_ne_nil _ _ hd

theorem not_isEmpty_of_ne {α : Type} (l : List α) (h : l ≠ []) :
    (!l.isEmpty) = true := by
  cases l with
  | nil => exact absurd rfl h
  | cons x xs => rfl

theorem classify_ahead (m : Option Manifest) (lh rh : String)
    (hm : m = none ∨ ∀ mm, m = some mm → mm.hash ≠ lh) :
    classifyStatus true true m lh rh = "ahead" := by
  unfold classifyStatus
  cases m with
  | none => rfl
  | some mm =>
    rcases hm with h | h
    · exact absurd h (by simp)
    · simp only [Bool.and_self, if_pos]
      rw [if_neg (h mm rfl)]

theorem classify_synced (mm : Manifest) (lh rh : String)
    (h1 : mm.hash = lh) (h2 : lh = rh) :
    classifyStatus true true (some mm) lh rh = "synced" := by
  unfold classifyStatus
  simp only [Bool.and_self, if_pos]
  rw [if_pos h1, if_pos h2]

theorem classify_behind (mm : Manifest) (lh rh : String)
    (h1 : mm.hash = lh) (h2 : lh ≠ rh) :
    classifyStatus true true (some mm) lh rh = "behind" := by
  unfold classifyStatus
  simp only [Bool.and_self, if_pos]
  rw [if_pos h1, if_neg h2]

theorem classify_local_only (m : Option Manifest) (lh rh : String) :
    classifyStatus true false m lh rh = "local only" := by
  simp [classifyStatus]

theorem classify_remote_only (m : Option Manifest) (lh rh : String) :
    classifyStatus false true m lh rh = "remote only" := by
  simp [classifyStatus]

theorem statusOfLecture_eq_some (w : World) (lec : String) (L : LocalLecture)
    (h : findLocal w lec = some L) :
    statusOfLecture w lec =
      classifyStatus (!L.files.isEmpty) (decide (lec ∈ statusRemotes w)) L.manifest
        (compute_dir_hash L.files)
        (if decide (lec ∈ statusRemotes w) then remoteHashOf w lec else "") := by
  unfold statusOfLecture
  rw [h]

theorem statusOfLecture_eq_none (w : World) (lec : String)
    (h : findLocal w lec = none) :
    statusOfLecture w lec =
      classifyStatus false (decide (lec ∈ statusRemotes w)) none ""
        (if decide (lec ∈ statusRemotes w) then remoteHashOf w lec else "") := by
  unfold statusOfLecture
  rw [h]

theorem mem_statusRows_iff (w : World) (lec : String) :
    lec ∈ (statusRows w).map Prod.fst ↔
      lec ∈ get_lectures w ∨ lec ∈ statusRemotes w := by
  have h1 : (statusRows w).map Prod.fst = allLectures w := by
    unfold statusRows
    rw [List.map_map]
    exact List.map_id (allLectures w)
  rw [h1]
  unfold allLectures
  rw [(List.perm_insertionSort strLe _).mem_iff, List.mem_dedup, List.mem_append]

/-- C1: with both local and remote data present, status is `ahead` when
the local manifest is missing or stale, otherwise `synced` or `behind`
according to whether the current local hash equals the remote manifest
hash; local-data-only lectures are `local only`, remote-only lectures
are `remote only`, and a lecture with neither is not listed. -/
theorem C1_status_classification :
    (∀ (w : World) (lec : String) (L : LocalLecture),
      findLocal w lec = some L → L.files ≠ [] →
      lec ∈ statusRemotes w →
      (L.manifest = none ∨ ∀ m, L.manifest = some m → m.hash ≠ compute_dir_hash L.files) →
      statusOfLecture w lec = "ahead")
  ∧ (∀ (w : World) (lec : String) (L : LocalLecture) (m : Manifest),
      findLocal w lec = some L → L.files ≠ [] → lec ∈ statusRemotes w →
      L.manifest = some m → m.hash = compute_dir_hash L.files →
      compute_dir_hash L.files = remoteHashOf w lec →
      statusOfLecture w lec = "synced")
  ∧ (∀ (w : World) (lec : String) (L : LocalLecture) (m : Manifest),
      findLocal w lec = some L → L.files ≠ [] → lec ∈ statusRemotes w →
      L.manifest = some m → m.hash = compute_dir_hash L.files →
      compute_dir_hash L.files ≠ remoteHashOf w lec →
      statusOfLecture w lec = "behind")
  ∧ (∀ (w : World) (lec : String) (L : LocalLecture),
      findLocal w lec = some L → L.files ≠ [] → lec ∉ statusRemotes w →
      statusOfLecture w lec = "local only")
  ∧ (∀ (w : World) (lec : String),
      (∀ L, findLocal w lec = some L → L.files = []) → lec ∈ statusRemotes w →
      statusOfLecture w lec = "remote only")
  ∧ (∀ (w : World) (lec : String),
      lec ∈ (statusRows w).map Prod.fst ↔
        lec ∈ get_lectures w ∨ lec ∈ statusRemotes w) := by
  refine ⟨?_, ?_, ?_, ?_, ?_, ?_⟩
  · intro w lec L hfind hfiles hmem hman
    rw [statusOfLecture_eq_some w lec L hfind, not_isEmpty_of_ne L.files hfiles,
      decide_eq_true hmem]
    exact classify_ahead L.manifest _ _ hman
  · intro w lec L m hfind hfiles hmem hman hfresh hrh
    rw [statusOfLecture_eq_some w lec L hfind, not_isEmpty_of_ne L.files hfiles,
      decide_eq_true hmem, hman, if_pos rfl]
    exact classify_synced m _ _ hfresh hrh
  · intro w lec L m hfind hfiles hmem hman hfresh hrh
    rw [statusOfLecture_eq_some w lec L hfind, not_isEmpty_of_ne L.files hfiles,
      decide_eq_true hmem, hman, if_pos rfl]
    exact classify_behind m _ _ hfresh hrh
  · intro w lec L hfind hfiles hmem
    rw [statusOfLecture_eq_some w lec L hfind, not_isEmpty_of_ne L.files hfiles,
      decide_eq_false hmem]
    exact classify_local_only L.manifest _ _
  · intro w lec hloc hmem
    cases hfind : findLocal w lec with
    | none =>
      rw [statusOfLecture_eq_none w lec hfind, decide_eq_true hmem]
      exact classify_remote_only none _ _
    | some L =>
      rw [statusOfLecture_eq_some w lec L hfind, decide_eq_true hmem,
        hloc L hfind]
      exact classify_remote_only L.manifest _ _
  · exact mem_statusRows_iff

theorem C1_status_classification_witness :
    statusOfLecture
      { localLectures := [⟨"01-a", [⟨"data.txt", 5, 100⟩],
          some ⟨"01-a", "hdata.txt5100", 5, "t", [("data.txt", 5)]⟩⟩],
        remoteTree := [⟨"01-a", some "directory"⟩],
        remoteManifests :=
          [("01-a", ⟨"01-a", "hdata.txt5100", 5, "t", [("data.txt", 5)]⟩)] }
      "01-a" = "synced" ∧
    statusOfLecture
      { localLectures := [⟨"01-b", [⟨"data.txt", 5, 100⟩], none⟩],
        remoteTree := [], remoteManifests := [] }
      "01-b" = "local only" :=
  ⟨C1_status_classification.2.1 _ "01-a"
      ⟨"01-a", [⟨"data.txt", 5, 100⟩],
        some ⟨"01-a", "hdata.txt5100", 5, "t", [("data.txt", 5)]⟩⟩
      ⟨"01-a", "hdata.txt5100", 5, "t", [("data.txt", 5)]⟩
      (by decide) (by decide) (by decide) (by decide) (by decide) (by decide),
    C1_status_classification.2.2.2.1 _ "01-b"
      ⟨"01-b", [⟨"data.txt", 5, 100⟩], none⟩
      (by decide) (by decide) (by decide)⟩

/-- C2: snapshots whose non-dot files carry identical
(path, size, mtime) triples hash equally, and changing one non-dot
file's size alone or mtime alone changes the hash (with the digest
idealised as injective in the absorbed stream). -/
theorem C2_dir_hash_fingerprint :
    (∀ l₁ l₂ : List FileEntry,
      (l₁.filter nonDot).Perm (l₂.filter nonDot) →
      ((l₁.filter nonDot).map (fun f => f.path)).Nodup →
      compute_dir_hash l₁ = compute_dir_hash l₂)
  ∧ (∀ (pre post : List FileEntry) (f g : FileEntry),
      g.path = f.path → g.mtime = f.mtime → g.size ≠ f.size → nonDot f = true →
      ((pre ++ f :: post).map (fun e => e.path)).Nodup →
      compute_dir_hash (pre ++ g :: post) ≠ compute_dir_hash (pre ++ f :: post))
  ∧ (∀ (pre post : List FileEntry) (f g : FileEntry),
      g.path = f.path → g.size = f.size → g.mtime ≠ f.mtime → nonDot f = true →
      ((pre ++ f :: post).map (fun e => e.path)).Nodup →
      compute_dir_hash (pre ++ g :: post) ≠ compute_dir_hash (pre ++ f :: post)) :=
  ⟨compute_dir_hash_congr,
   fun pre post f g h1 h2 h3 h4 h5 =>
     compute_dir_hash_ne_of_size_change pre post f g h1 h2 h3 h4 h5,
   fun pre post f g h1 h2 h3 h4 h5 =>
     compute_dir_hash_ne_of_mtime_change pre post f g h1 h2 h3 h4 h5⟩

theorem C2_dir_hash_fingerprint_witness :
    compute_dir_hash [⟨"b.txt", 1, 2⟩, ⟨"a.txt", 3, 4⟩] =
      compute_dir_hash [⟨"a.txt", 3, 4⟩, ⟨"b.txt", 1, 2⟩] ∧
    compute_dir_hash ([] ++ ⟨"a.txt", 3, 99⟩ :: [⟨"b.txt", 1, 2⟩]) ≠
      compute_dir_hash ([] ++ ⟨"a.txt", 3, 4⟩ :: [⟨"b.txt", 1, 2⟩]) :=
  ⟨C2_dir_hash_fingerprint.1 _ _ (by decide) (by decide),
   C2_dir_hash_fingerprint.2.2 [] [⟨"b.txt", 1, 2⟩] ⟨"a.txt", 3, 4⟩ ⟨"a.txt", 3, 99⟩
     (by decide) (by decide) (by decide) (by decide) (by decide)⟩

theorem isEmpty_false_of_ne {α : Type} (l : List α) (h : l ≠ []) :
    l.isEmpty = false := by
  cases l with
  | nil => exact absurd rfl h
  | cons x xs => rfl

/-- C3 counterexample: an upload exception whose message contains
"timed out" takes the timeout-report branch of `cmd_push`, yet the
command still exits 1, because `sys.exit(1)` sits after the whole
`if`/`else` of the `except` handler. -/
theorem C3_push_timeout_counterexample :
    (cmd_push "01-a" [⟨"data.txt", 5, 100⟩] "t" (some "Read timed out")).timeoutReported
      = true ∧
    (cmd_push "01-a" [⟨"data.txt", 5, 100⟩] "t" (some "Read timed out")).exitCode = 1 := by
  decide

/-- C3 (amended): a timeout during finalisation is reported with the
distinguished may-have-succeeded message while any other upload error
gets the generic message, but every upload exception ends in
`sys.exit(1)`; only a clean upload exits 0. -/
theorem C3_push_error_exit (lec ts : String) (files : List FileEntry) (msg : String)
    (h : files ≠ []) :
    (cmd_push lec files ts (some msg)).exitCode = 1 ∧
    (cmd_push lec files ts (some msg)).timeoutReported = isTimeoutMsg msg ∧
    (cmd_push lec files ts none).exitCode = 0 := by
  have hE : files.isEmpty = false := isEmpty_false_of_ne files h
  refine ⟨?_, ?_, ?_⟩ <;> simp [cmd_push, hE]

theorem C3_push_error_exit_witness :
    (cmd_push "01-a" [⟨"data.txt", 5, 100⟩] "t" (some "403 forbidden")).exitCode = 1 ∧
    (cmd_push "01-a" [⟨"data.txt", 5, 100⟩] "t" (some "403 forbidden")).timeoutReported
      = isTimeoutMsg "403 forbidden" ∧
    (cmd_push "01-a" [⟨"data.txt", 5, 100⟩] "t" none).exitCode = 0 :=
  C3_push_error_exit "01-a" "t" [⟨"data.txt", 5, 100⟩] "403 forbidden" (by decide)

theorem pushallNeeds_ne_none_iff (w : World) (L : LocalLecture) (hne : L.files ≠ []) :
    pushallNeeds w L ≠ none ↔
      (classifyPushall w L ≠ "synced" ∧ ¬ pushallFetchSkip w L) := by
  have hCL : classifyPushall w L =
      classifyStatus true (decide (L.name ∈ pushallRemotes w)) L.manifest
        (compute_dir_hash L.files)
        (if L.name ∈ pushallRemotes w then remoteHashOf w L.name else "") := by
    unfold classifyPushall
    rw [not_isEmpty_of_ne L.files hne]
  by_cases hR : L.name ∈ pushallRemotes w
  · have hPN : pushallNeeds w L =
        pushallManifestStep (compute_dir_hash L.files) L.manifest
          (fetchRemoteManifest w L.name) := by
      unfold pushallNeeds
      rw [if_pos hR]
    rw [hCL, decide_eq_true hR, if_pos hR]
    cases hman : L.manifest with
    | none =>
      rw [hPN, hman]
      constructor
      · intro _
        refine ⟨?_, fun hskip => ?_⟩
        · rw [classify_ahead none _ _ (Or.inl rfl)]; decide
        · obtain ⟨mm, hmm, _⟩ := hskip.2.1
          rw [hman] at hmm
          exact Option.noConfusion hmm
      · intro _
        simp [pushallManifestStep]
    | some m =>
      rw [hPN, hman]
      by_cases hfresh : m.hash = compute_dir_hash L.files
      · cases hfetch : fetchRemoteManifest w L.name with
        | none =>
          have hval : pushallManifestStep (compute_dir_hash L.files) (some m) none
              = none := by
            simp only [pushallManifestStep]
            rw [if_neg (fun hcon => hcon hfresh)]
          rw [hval]
          constructor
          · intro hcon
            exact absurd rfl hcon
          · rintro ⟨_, hskip⟩
            exact absurd ⟨hR, ⟨m, hman, hfresh⟩, hfetch⟩ hskip
        | some rm =>
          have hRH : remoteHashOf w L.name = rm.hash := by
            unfold remoteHashOf
            rw [hfetch]
          by_cases hdiff : compute_dir_hash L.files ≠ rm.hash
          · have hval : pushallManifestStep (compute_dir_hash L.files) (some m) (some rm)
                = some "ahead" := by
              simp only [pushallManifestStep]
              rw [if_neg (fun hcon => hcon hfresh), if_pos hdiff]
            rw [hval, hRH]
            constructor
            · intro _
              refine ⟨?_, fun hskip => ?_⟩
              · rw [classify_behind m _ _ hfresh hdiff]; decide
              · exact Option.noConfusion (hskip.2.2.symm.trans hfetch)
            · intro _
              simp
          · have hval : pushallManifestStep (compute_dir_hash L.files) (some m) (some rm)
                = none := by
              simp only [pushallManifestStep]
              rw [if_neg (fun hcon => hcon hfresh), if_neg hdiff]
            rw [hval, hRH]
            push_neg at hdiff
            constructor
            · intro hcon
              exact absurd rfl hcon
            · rintro ⟨hcls, _⟩
              exact absurd (classify_synced m _ _ hfresh hdiff) hcls
      · have hval : pushallManifestStep (compute_dir_hash L.files) (some m)
            (fetchRemoteManifest w L.name) = some "ahead" := by
          simp only [pushallManifestStep]
          rw [if_pos hfresh]
        rw [hval]
        constructor
        · intro _
          refine ⟨?_, fun hskip => ?_⟩
          · rw [classify_ahead (some m) _ _
              (Or.inr (fun mm hmm => by rw [← Option.some.inj hmm]; exact hfresh))]
            decide
          · obtain ⟨m2, hm2, hh2⟩ := hskip.2.1
            rw [hman] at hm2
            exact hfresh (by rw [Option.some.inj hm2]; exact hh2)
        · intro _
          simp
  · have hPN : pushallNeeds w L = some "local only" := by
      unfold pushallNeeds
      rw [if_neg hR]
    rw [hPN, hCL, decide_eq_false hR, if_neg hR]
    constructor
    · intro _
      refine ⟨?_, fun hskip => hR hskip.1⟩
      rw [classify_local_only L.manifest _ _]; decide
    · intro _
      simp

theorem mem_attempted_iff (w : World) (up : String → Option String) (L : LocalLecture)
    (hnodup : (w.localLectures.map (fun l => l.name)).Nodup)
    (hmem : L ∈ w.localLectures) (hne : L.files ≠ []) :
    L.name ∈ (cmd_pushall w up).attempted ↔ pushallNeeds w L ≠ none := by
  have hA : (cmd_pushall w up).attempted = (toPush w).map (fun p => p.1) := rfl
  rw [hA]
  unfold toPush
  rw [List.mem_map]
  constructor
  · rintro ⟨p, hp, hp1⟩
    rw [List.mem_filterMap] at hp
    obtain ⟨L2, hL2, hg⟩ := hp
    rw [List.mem_filter] at hL2
    rw [Option.map_eq_some'] at hg
    obtain ⟨lab, hlab, hpe⟩ := hg
    have hname : L2.name = L.name := by rw [← hp1, ← hpe]
    have hLL : L2 = L := List.inj_on_of_nodup_map hnodup hL2.1 hmem hname
    rw [← hLL, hlab]
    exact fun hcon => Option.noConfusion hcon
  · intro hne2
    cases hval : pushallNeeds w L with
    | none => exact absurd hval hne2
    | some lab =>
      refine ⟨(L.name, lab), List.mem_filterMap.mpr
        ⟨L, List.mem_filter.mpr ⟨hmem, not_isEmpty_of_ne _ hne⟩, ?_⟩, rfl⟩
      rw [hval]
      rfl

theorem mem_failed_iff (w : World) (up : String → Option String) (lec : String) :
    lec ∈ (cmd_pushall w up).failed ↔
      lec ∈ (cmd_pushall w up).attempted ∧
        ∃ msg, up lec = some msg ∧ isTimeoutMsg msg = false := by
  have hA : (cmd_pushall w up).attempted = (toPush w).map (fun p => p.1) := rfl
  have hF : (cmd_pushall w up).failed = (toPush w).filterMap (fun p =>
      match up p.1 with
      | none => none
      | some msg => if isTimeoutMsg msg then none else some p.1) := rfl
  rw [hA, hF, List.mem_filterMap, List.mem_map]
  constructor
  · rintro ⟨p, hp, hval⟩
    cases hup : up p.1 with
    | none =>
      rw [hup] at hval
      exact Option.noConfusion hval
    | some msg =>
      rw [hup] at hval
      have hval2 : (if isTimeoutMsg msg = true then none else some p.1) = some lec :=
        hval
      by_cases ht : isTimeoutMsg msg = true
      · rw [if_pos ht] at hval2
        exact Option.noConfusion hval2
      · rw [if_neg ht] at hval2
        have hple : p.1 = lec := Option.some.inj hval2
        exact ⟨⟨p, hp, hple⟩, msg, hple ▸ hup, Bool.eq_false_iff.mpr ht⟩
  · rintro ⟨⟨p, hp, hp1⟩, msg, hup, ht⟩
    refine ⟨p, hp, ?_⟩
    rw [hp1, hup]
    show (if isTimeoutMsg msg = true then none else some lec) = some lec
    rw [ht]
    simp

/-- C4 counterexample: a lecture whose remote-manifest fetch fails
while its local manifest is fresh is classified `behind` (not `synced`)
by the status classifier, yet `cmd_pushall` does not attempt it — the
fetch failure hits `except Exception: pass  # If we can't check, skip`. -/
theorem C4_pushall_skip_counterexample :
    "01-a" ∈ get_lectures
      { localLectures := [⟨"01-a", [⟨"data.txt", 5, 100⟩],
          some ⟨"01-a", "hdata.txt5100", 5, "t", [("data.txt", 5)]⟩⟩],
        remoteTree := [⟨"01-a", none⟩],
        remoteManifests := [] } ∧
    statusOfLecture
      { localLectures := [⟨"01-a", [⟨"data.txt", 5, 100⟩],
          some ⟨"01-a", "hdata.txt5100", 5, "t", [("data.txt", 5)]⟩⟩],
        remoteTree := [⟨"01-a", none⟩],
        remoteManifests := [] } "01-a" ≠ "synced" ∧
    "01-a" ∉ (cmd_pushall
      { localLectures := [⟨"01-a", [⟨"data.txt", 5, 100⟩],
          some ⟨"01-a", "hdata.txt5100", 5, "t", [("data.txt", 5)]⟩⟩],
        remoteTree := [⟨"01-a", none⟩],
        remoteManifests := [] }
      (fun _ => none)).attempted := by
  refine ⟨by decide, by decide, by decide⟩

/-- C4 (amended): `cmd_pushall` attempts exactly the local lectures
whose classification on its own remote view is not `synced`, except
that a lecture with a fresh manifest whose remote-manifest fetch fails
is skipped; the attempted set does not depend on upload outcomes, a
lecture is reported failed exactly when its upload raised a non-timeout
error, and the command exits 0 exactly when no lecture failed. -/
theorem C4_pushall_selection :
    (∀ (w : World) (up : String → Option String) (L : LocalLecture),
      (w.localLectures.map (fun l => l.name)).Nodup →
      L ∈ w.localLectures → L.files ≠ [] →
      (L.name ∈ (cmd_pushall w up).attempted ↔
        (classifyPushall w L ≠ "synced" ∧ ¬ pushallFetchSkip w L)))
  ∧ (∀ (w : World) (up up2 : String → Option String),
      (cmd_pushall w up).attempted = (cmd_pushall w up2).attempted)
  ∧ (∀ (w : World) (up : String → Option String) (lec : String),
      lec ∈ (cmd_pushall w up).failed ↔
        lec ∈ (cmd_pushall w up).attempted ∧
          ∃ msg, up lec = some msg ∧ isTimeoutMsg msg = false)
  ∧ (∀ (w : World) (up : String → Option String),
      (cmd_pushall w up).exitCode = 0 ↔ (cmd_pushall w up).failed = []) := by
  refine ⟨?_, ?_, ?_, ?_⟩
  · intro w up L hnodup hmem hne
    exact (mem_attempted_iff w up L hnodup hmem hne).trans
      (pushallNeeds_ne_none_iff w L hne)
  · intro w up up2
    rfl
  · exact mem_failed_iff
  · intro w up
    have hE : (cmd_pushall w up).exitCode =
        if (cmd_pushall w up).failed.isEmpty then 0 else 1 := rfl
    rw [hE]
    cases hf : (cmd_pushall w up).failed with
    | nil => simp
    | cons x xs => simp

theorem C4_pushall_selection_witness :
    ("01-a" ∈ (cmd_pushall
      { localLectures := [⟨"01-a", [⟨"data.txt", 5, 100⟩], none⟩],
        remoteTree := [], remoteManifests := [] }
      (fun _ => none)).attempted ↔
      (classifyPushall
        { localLectures := [⟨"01-a", [⟨"data.txt", 5, 100⟩], none⟩],
          remoteTree := [], remoteManifests := [] }
        ⟨"01-a", [⟨"data.txt", 5, 100⟩], none⟩ ≠ "synced" ∧
        ¬ pushallFetchSkip
          { localLectures := [⟨"01-a", [⟨"data.txt", 5, 100⟩], none⟩],
            remoteTree := [], remoteManifests := [] }
          ⟨"01-a", [⟨"data.txt", 5, 100⟩], none⟩)) :=
  C4_pushall_selection.1 _ (fun _ => none)
    ⟨"01-a", [⟨"data.txt", 5, 100⟩], none⟩ (by decide) (by decide) (by decide)

/-- C5 counterexample: when the download raises after the staging
directory was created, `cmd_pull --all` exits 1 leaving the staging
directory behind — the `except` arm has no cleanup. -/
theorem C5_pull_staging_counterexample :
    (cmd_pull_all DlResult.failAfterCreate).stagingLeft = true ∧
    (cmd_pull_all DlResult.failAfterCreate).exitCode = 1 := by
  decide

/-- C5 (amended): every successful pull branch removes the staging
directory before exiting, but a download/move exception exits 1 and
leaves an already-created staging directory in place. -/
theorem C5_pull_staging_cleanup :
    cmd_pull_all DlResult.ok = { exitCode := 0, stagingLeft := false } ∧
    cmd_pull_lecture DlResult.ok = { exitCode := 0, stagingLeft := false } ∧
    cmd_pull_subpath DlResult.ok = { exitCode := 0, stagingLeft := false } ∧
    cmd_pull_all DlResult.failAfterCreate = { exitCode := 1, stagingLeft := true } ∧
    cmd_pull_lecture DlResult.failAfterCreate = { exitCode := 1, stagingLeft := true } ∧
    cmd_pull_subpath DlResult.failAfterCreate = { exitCode := 1, stagingLeft := true } ∧
    cmd_pull_all DlResult.failNoCreate = { exitCode := 1, stagingLeft := false } ∧
    cmd_pull_lecture DlResult.failNoCreate = { exitCode := 1, stagingLeft := false } ∧
    cmd_pull_subpath DlResult.failNoCreate = { exitCode := 1, stagingLeft := false } := by
  decide

theorem statusOfLecture_single (lec : String) (cur : List FileEntry) (man : Manifest)
    (htop : treeTopLevel ⟨lec, some "directory"⟩ = true) (hcur : cur ≠ []) :
    statusOfLecture
      { localLectures := [⟨lec, cur, some man⟩],
        remoteTree := [⟨lec, some "directory"⟩],
        remoteManifests := [(lec, man)] } lec =
      classifyStatus true true (some man) (compute_dir_hash cur) man.hash := by
  set w : World :=
    { localLectures := [⟨lec, cur, some man⟩],
      remoteTree := [⟨lec, some "directory"⟩],
      remoteManifests := [(lec, man)] } with hw
  have hfind : findLocal w lec = some ⟨lec, cur, some man⟩ := by
    unfold findLocal
    rw [hw]
    exact List.find?_cons_of_pos _ (by simp)
  have hadd : statusRemoteAdd ⟨lec, some "directory"⟩ = true := by
    simp [statusRemoteAdd, htop]
  have hSR : statusRemotes w = [lec] := by
    unfold statusRemotes
    rw [hw]
    simp [hadd]
  have hmem : lec ∈ statusRemotes w := by
    rw [hSR]
    exact List.mem_singleton.mpr rfl
  have hRH : remoteHashOf w lec = man.hash := by
    unfold remoteHashOf fetchRemoteManifest
    rw [hw]
    rw [List.find?_cons_of_pos _ (by simp)]
    rfl
  rw [statusOfLecture_eq_some w lec _ hfind, not_isEmpty_of_ne cur hcur,
    decide_eq_true hmem, if_pos rfl, hRH]

/-- C6: after a successful push, querying status with the directory
unchanged yields `synced`; changing one file's mtime (as a content
rewrite does) between push and status yields `ahead`. -/
theorem C6_push_then_status :
    (∀ (lec ts : String) (files : List FileEntry),
      files ≠ [] → treeTopLevel ⟨lec, some "directory"⟩ = true →
      statusOfLecture
        { localLectures := [⟨lec, files, some (mkManifest lec files ts)⟩],
          remoteTree := [⟨lec, some "directory"⟩],
          remoteManifests := [(lec, mkManifest lec files ts)] } lec = "synced")
  ∧ (∀ (lec ts : String) (pre post : List FileEntry) (f g : FileEntry),
      treeTopLevel ⟨lec, some "directory"⟩ = true →
      g.path = f.path → g.size = f.size → g.mtime ≠ f.mtime → nonDot f = true →
      ((pre ++ f :: post).map (fun e => e.path)).Nodup →
      statusOfLecture
        { localLectures :=
            [⟨lec, pre ++ g :: post, some (mkManifest lec (pre ++ f :: post) ts)⟩],
          remoteTree := [⟨lec, some "directory"⟩],
          remoteManifests := [(lec, mkManifest lec (pre ++ f :: post) ts)] }
        lec = "ahead") := by
  constructor
  · intro lec ts files hfiles htop
    rw [statusOfLecture_single lec files (mkManifest lec files ts) htop hfiles]
    exact classify_synced _ _ _ rfl rfl
  · intro lec ts pre post f g htop hpath hsize hmtime hnd hnodup
    rw [statusOfLecture_single lec (pre ++ g :: post)
      (mkManifest lec (pre ++ f :: post) ts) htop (by simp)]
    apply classify_ahead
    right
    intro mm hmm
    rw [← Option.some.inj hmm]
    show compute_dir_hash (pre ++ f :: post) ≠ compute_dir_hash (pre ++ g :: post)
    exact (compute_dir_hash_ne_of_mtime_change pre post f g hpath hsize hmtime
      hnd hnodup).symm

theorem render_main_usedFormat (prog inp outp : String) (rest : List String)
    (qe : Nat) (qp : Bool) :
    (render_main (prog :: inp :: outp :: rest) true qe qp).usedFormat =
      chooseFormat (pyLowerStr (pySuffix outp)) := by
  unfold render_main
  simp only [Bool.not_true, Bool.false_eq_true, if_false]
  cases hcf : chooseFormat (pyLowerStr (pySuffix outp)) with
  | none =>
    simp only [hcf]
  | some f =>
    simp only [hcf]
    split_ifs <;> rfl

theorem render_main_reject (prog inp outp : String) (rest : List String)
    (qe : Nat) (qp : Bool) (h : chooseFormat (pyLowerStr (pySuffix outp)) = none) :
    render_main (prog :: inp :: outp :: rest) true qe qp =
      { subprocessInvoked := false, exitCode := 1, outputCopied := false,
        usedFormat := none } := by
  unfold render_main
  simp [h]

/-- C7: the output format is dictated by the output file's extension,
with pdf and html the only possible formats; an extension implying
neither (such as `.txt`) exits 1 before the quarto subprocess is
invoked. -/
theorem C7_render_format_dispatch :
    (∀ (ext : String) (fmt : OutputFormat),
      chooseFormat ext = some fmt →
      fmt = OutputFormat.pdf ∨ fmt = OutputFormat.html)
  ∧ (∀ (argv : List String) (prog inp outp : String) (rest : List String)
      (qe : Nat) (qp : Bool),
      argv = prog :: inp :: outp :: rest →
      chooseFormat (pyLowerStr (pySuffix outp)) = none →
      render_main argv true qe qp =
        { subprocessInvoked := false, exitCode := 1, outputCopied := false,
          usedFormat := none })
  ∧ (∀ (argv : List String) (prog inp outp : String) (rest : List String)
      (qe : Nat) (qp : Bool) (fmt : OutputFormat),
      argv = prog :: inp :: outp :: rest →
      (render_main argv true qe qp).usedFormat = some fmt →
      chooseFormat (pyLowerStr (pySuffix outp)) = some fmt)
  ∧ chooseFormat ".txt" = none := by
  refine ⟨?_, ?_, ?_, by decide⟩
  · intro ext fmt h
    unfold chooseFormat at h
    by_cases h1 : ext = ".pdf"
    · rw [if_pos h1] at h
      exact Or.inl (Option.some.inj h).symm
    · rw [if_neg h1] at h
      by_cases h2 : ext = ".html" ∨ ext = ".htm"
      · rw [if_pos h2] at h
        exact Or.inr (Option.some.inj h).symm
      · rw [if_neg h2] at h
        exact Option.noConfusion h
  · intro argv prog inp outp rest qe qp hargv hnone
    subst hargv
    exact render_main_reject prog inp outp rest qe qp hnone
  · intro argv prog inp outp rest qe qp fmt hargv hfmt
    subst hargv
    rw [render_main_usedFormat prog inp outp rest qe qp] at hfmt
    exact hfmt

theorem C7_render_format_dispatch_witness :
    render_main ["render_notebook.py", "in.ipynb", "out.txt"] true 0 true =
      { subprocessInvoked := false, exitCode := 1, outputCopied := false,
        usedFormat := none } ∧
    (OutputFormat.pdf = OutputFormat.pdf ∨ OutputFormat.pdf = OutputFormat.html) :=
  ⟨C7_render_format_dispatch.2.1 _ "render_notebook.py" "in.ipynb" "out.txt" [] 0 true
      rfl (by decide),
   C7_render_format_dispatch.1 ".pdf" OutputFormat.pdf (by decide)⟩

/-- C8 counterexample: the code removes a directive line even when it
is preceded by whitespace (`line.strip().startswith('#|')`), so the
result differs from removing exactly the lines that literally begin
with the prefix. -/
theorem C8_strip_counterexample :
    strip_nbdev_directives [⟨"code", CellSource.fromList [" #|export\n", "x = 1\n"]⟩] ≠
      [⟨"code", CellSource.fromList (claimDirectiveFilter [" #|export\n", "x = 1\n"])⟩] := by
  decide

/-- C8 (amended): directive stripping removes from every code cell
exactly the source lines whose whitespace-stripped form begins with
the prefix, in both source forms; other cell types are untouched; the
concrete example behaves as the spec says. -/
theorem C8_strip_directives :
    (∀ (pre post : List NbCell) (ls : List String),
      strip_nbdev_directives (pre ++ ⟨"code", CellSource.fromList ls⟩ :: post) =
        strip_nbdev_directives pre ++
          ⟨"code", CellSource.fromList (ls.filter (fun l => !isDirectiveLine l))⟩ ::
            strip_nbdev_directives post)
  ∧ (∀ (pre post : List NbCell) (s : String),
      strip_nbdev_directives (pre ++ ⟨"code", CellSource.fromStr s⟩ :: post) =
        strip_nbdev_directives pre ++
          ⟨"code", CellSource.fromStr
              (joinLinesNL ((splitLinesNL s).filter (fun l => !isDirectiveLine l)))⟩ ::
            strip_nbdev_directives post)
  ∧ (∀ (pre post : List NbCell) (c : NbCell), c.cell_type ≠ "code" →
      strip_nbdev_directives (pre ++ c :: post) =
        strip_nbdev_directives pre ++ c :: strip_nbdev_directives post)
  ∧ strip_nbdev_directives [⟨"code", CellSource.fromList ["#|export\n", "x = 1\n"]⟩] =
      [⟨"code", CellSource.fromList ["x = 1\n"]⟩] := by
  refine ⟨?_, ?_, ?_, by decide⟩
  · intro pre post ls
    simp [strip_nbdev_directives, stripSource]
  · intro pre post s
    simp [strip_nbdev_directives, stripSource]
  · intro pre post c hc
    simp [strip_nbdev_directives, hc]

theorem C8_strip_directives_witness :
    strip_nbdev_directives
        ([] ++ (⟨"markdown", CellSource.fromList ["#|export\n"]⟩ : NbCell) :: []) =
      strip_nbdev_directives [] ++
        (⟨"markdown", CellSource.fromList ["#|export\n"]⟩ : NbCell) ::
          strip_nbdev_directives [] :=
  C8_strip_directives.2.2.1 [] [] ⟨"markdown", CellSource.fromList ["#|export\n"]⟩
    (by decide)

/-- C9: when the computed target folder name already exists under
`lectures/`, the scaffolder exits 1 having performed no filesystem
effect — the exists-check precedes every mkdir and write. -/
theorem C9_create_lecture_collision :
    ∀ (entries : List FsEntry) (name : String),
      (pad2 (get_next_lecture_number entries) ++ "-" ++ slugify name)
        ∈ entries.map (fun e => e.name) →
      create_lecture entries name = (some 1, []) := by
  intro entries name h
  unfold create_lecture
  rw [if_pos h]

theorem C9_create_lecture_collision_witness :
    create_lecture [⟨"01-x", true⟩, ⟨"02-intro", false⟩] "Intro" = (some 1, []) :=
  C9_create_lecture_collision [⟨"01-x", true⟩, ⟨"02-intro", false⟩] "Intro" (by decide)

/-- C10: `cmd_push` saves the rebuilt manifest locally before the
upload is attempted, so after a failed upload the local manifest file
already holds the new record — local state is not left unchanged on
error. -/
theorem C10_manifest_saved_before_upload :
    ∀ (lec ts : String) (files : List FileEntry) (uploadError : Option String)
      (init : Option Manifest),
      files ≠ [] →
      ((cmd_push_trace lec files ts uploadError).take 2 =
        [PushEvent.saveManifestEv (mkManifest lec files ts), PushEvent.uploadEv lec])
      ∧ (∀ msg, uploadError = some msg →
          localManifestAfter init (cmd_push_trace lec files ts uploadError) =
            some (mkManifest lec files ts) ∧
          (cmd_push lec files ts uploadError).exitCode = 1 ∧
          (init ≠ some (mkManifest lec files ts) →
            localManifestAfter init (cmd_push_trace lec files ts uploadError) ≠ init)) := by
  intro lec ts files uploadError init h
  have hE : files.isEmpty = false := isEmpty_false_of_ne files h
  constructor
  · cases uploadError with
    | none => simp [cmd_push_trace, hE]
    | some msg => simp [cmd_push_trace, hE]
  · intro msg hmsg
    subst hmsg
    have hfold : localManifestAfter init (cmd_push_trace lec files ts (some msg)) =
        some (mkManifest lec files ts) := by
      simp [cmd_push_trace, hE, localManifestAfter]
    refine ⟨hfold, by simp [cmd_push, hE], fun hinit hcon => hinit ?_⟩
    rw [← hcon, hfold]

theorem C10_manifest_saved_before_upload_witness :
    (cmd_push_trace "01-a" [⟨"data.txt", 5, 100⟩] "t" (some "boom")).take 2 =
      [PushEvent.saveManifestEv (mkManifest "01-a" [⟨"data.txt", 5, 100⟩] "t"),
       PushEvent.uploadEv "01-a"] ∧
    localManifestAfter none (cmd_push_trace "01-a" [⟨"data.txt", 5, 100⟩] "t" (some "boom")) =
      some (mkManifest "01-a" [⟨"data.txt", 5, 100⟩] "t") :=
  ⟨(C10_manifest_saved_before_upload "01-a" "t" [⟨"data.txt", 5, 100⟩] (some "boom")
      none (by decide)).1,
   ((C10_manifest_saved_before_upload "01-a" "t" [⟨"data.txt", 5, 100⟩] (some "boom")
      none (by decide)).2 "boom" rfl).1⟩

theorem C6_push_then_status_witness :
    statusOfLecture
      { localLectures := [⟨"01-a", [⟨"data.txt", 5, 100⟩],
          some (mkManifest "01-a" [⟨"data.txt", 5, 100⟩] "t")⟩],
        remoteTree := [⟨"01-a", some "directory"⟩],
        remoteManifests := [("01-a", mkManifest "01-a" [⟨"data.txt", 5, 100⟩] "t")] }
      "01-a" = "synced" ∧
    statusOfLecture
      { localLectures := [⟨"01-a", [] ++ (⟨"data.txt", 5, 200⟩ : FileEntry) :: [],
          some (mkManifest "01-a" ([] ++ (⟨"data.txt", 5, 100⟩ : FileEntry) :: []) "t")⟩],
        remoteTree := [⟨"01-a", some "directory"⟩],
        remoteManifests :=
          [("01-a", mkManifest "01-a" ([] ++ (⟨"data.txt", 5, 100⟩ : FileEntry) :: []) "t")] }
      "01-a" = "ahead" :=
  ⟨C6_push_then_status.1 "01-a" "t" [⟨"data.txt", 5, 100⟩] (by decide) (by decide),
   C6_push_then_status.2 "01-a" "t" [] [] ⟨"data.txt", 5, 100⟩ ⟨"data.txt", 5, 200⟩
     (by decide) (by decide) (by decide) (by decide) (by decide) (by decide)⟩
